import Mathlib

/-!
Verification of the hdf2mic converter core (data model, attribute classifier,
rotation preprocessing, geometry handling, serializer header, tag substitution)
against a shallow embedding of the Python sources in src/hdf2mic.

Numeric array contents are embedded as exact rationals; numpy shapes as lists of
naturals; the h5py file handle as a lookup function from group paths to optional
datasets.  Python list.sort(key=...) is a stable sort comparing keys with the
usual order and is embedded as List.mergeSort with the corresponding boolean
comparison.
-/

namespace Hdf2Mic

/-- The five VTK dataset attribute types accepted for cell data
(keys of VTK_DATASET_ATTRIBUTE_TYPE_ORDER, data.py lines 73-75). -/
inductive DsetAttrType
  | SCALARS
  | VECTORS
  | NORMALS
  | TENSORS
  | FIELD
  deriving DecidableEq, Repr

/-- Sort precedence of the VTK dataset attribute types
(data.py VTK_DATASET_ATTRIBUTE_TYPE_ORDER, lines 73-75). -/
def VTK_DATASET_ATTRIBUTE_TYPE_ORDER : DsetAttrType → Nat
  | .SCALARS => 0
  | .VECTORS => 1
  | .NORMALS => 2
  | .TENSORS => 3
  | .FIELD => 4

/-- Geometry spacing triple as read from the HDF5 geometry group
(a 3x1 numpy array, data.py docstring; components as exact rationals). -/
structure Spacing3 where
  s0 : ℚ
  s1 : ℚ
  s2 : ℚ
  deriving DecidableEq

/-- A stored numeric array that is either integer-valued (after astype to int)
or kept with fractional components. -/
inductive NumArr
  | ints (l : List ℤ)
  | rats (l : List ℚ)
  deriving DecidableEq

/-- Whether a rational is a whole number; embeds the numpy test
np.mod(arr_copy, 1, out=arr_copy); arr_copy == 0 of data.py lines 260-264. -/
def isWholeQ (q : ℚ) : Bool := q.den == 1

/-- Embeds Data._convert2int_if_no_decimals (data.py lines 260-267): if every
component is a whole number the array is converted to an integer array
(astype int, value preserving on whole numbers), else kept unchanged. -/
def convert2int_if_no_decimals (v : List ℚ) : NumArr :=
  if v.all isWholeQ then NumArr.ints (v.map (fun q => q.num)) else NumArr.rats v

/-- Embeds the Data.spacing setter (data.py lines 185-190): raises ValueError
when not all(value == value[0]) (the elementwise comparison of the triple with
its first component), else stores the possibly int-converted triple. -/
def spacing_set (v : Spacing3) : Except String NumArr :=
  if ¬ (v.s0 = v.s0 ∧ v.s1 = v.s0 ∧ v.s2 = v.s0) then
    Except.error "Data: spacing input implies non-cubic cells. MICRESS only supports cubic cells."
  else
    Except.ok (convert2int_if_no_decimals [v.s0, v.s1, v.s2])

/-- Embeds Data._has_equal_dimensions (data.py lines 216-246).  The source
receives two numpy arrays and inspects only their shapes, so the embedding
takes the shapes directly (list of per-axis extents): compare the number of
axes, then the products of the extents, then each extent. -/
def has_equal_dimensions (a b : List Nat) : Bool :=
  if a.length ≠ b.length then false
  else if a.prod ≠ b.prod then false
  else a == b

/-- A two-dimensional grain-level table (numpy array of shape (rows, cols)):
rows are grains, columns are components.  Both angles and phases are reshaped
to two-dimensional column tables by the reader (reshape((-1, 1)),
reader.py lines 217-218 and 271-272) before the comparison below runs. -/
structure Table2 where
  rows : Nat
  cols : Nat
  deriving DecidableEq

/-- Embeds Data._compare_angles_phases (data.py lines 248-258): for each angle
column i the shape of angles[:, i] (a one-dimensional array of length
angles.rows) is compared with the shape of phases[:, 0] (length phases.rows);
the first mismatch raises Hdf2Mic_HDF5DatasetDimensionError naming both
slices. -/
def compare_angles_phases (angles phases : Table2) : Except String Unit :=
  if (List.range angles.cols).all
      (fun _ => has_equal_dimensions [angles.rows] [phases.rows]) then
    Except.ok ()
  else
    Except.error "Data: dim mismatch between angles and phases"

/-- Embeds the input loop of rotMat.rotate (rotMat.py lines 151-156) in degree
space.  The source computes val = val * pi / 180 and then adds 2 * pi when the
result is negative; since multiplication by pi / 180 is strictly monotone,
preserves sign and maps 360 to 2 * pi, the radian value the source appends is
exactly (rotate_normalize_deg val) * pi / 180. -/
def rotate_normalize_deg (d : ℚ) : ℚ := if d < 0 then d + 360 else d

/-- The componentwise normalization the source applies to a whole Euler
triple before building the rotation matrices. -/
def rotate_normalize (v : List ℚ) : List ℚ := v.map rotate_normalize_deg

/-- Output of the Reader.group_dimensions setter (reader.py lines 491-503):
the stored point-count dimensions and the cell count. -/
structure GeoDims where
  dimensions : List Nat
  celldata_size : Nat
  deriving DecidableEq

/-- Embeds the Reader.group_dimensions setter (reader.py lines 491-503).
The geometry dataset holds the cell counts c0, c1, c2 per axis; point counts
are cell counts plus one; celldata_size is np.product of the cell counts; when
settings.rotate is on and dim == 3 the second and third point counts are
exchanged (the axis-swap hack). -/
def group_dimensions_set (rotate : Bool) (dim : Nat) (c0 c1 c2 : Nat) : GeoDims :=
  let p0 := c0 + 1
  let p1 := c1 + 1
  let p2 := c2 + 1
  { dimensions := if rotate && dim == 3 then [p0, p2, p1] else [p0, p1, p2]
    celldata_size := c0 * c1 * c2 }

/-- Embeds the DIMENSIONS header line of VtkWriter.write (writer_vtk.py lines
38-46 and 86, 97-102): the word DIMENSIONS followed by the space-joined
stored dimension values. -/
def dimensions_line (dims : List Nat) : String :=
  "DIMENSIONS " ++ String.intercalate " " (dims.map toString)

/-- Embeds Reader.dset (reader.py lines 598-628).  The h5py file handle is
modelled as a lookup function f from group path to an optional dataset of type
d; f h5path plays the role of self._f.get(h5path).  When h5path is the root
path or the empty string and safe is true, the method returns None without
querying; otherwise that special case falls through (pass) and the path is
queried like any other: a found dataset is returned, a missing one raises
Hdf2Mic_HDF5DatasetNotFoundError unless safe. -/
def dset {d : Type} (f : String → Option d) (h5path : String) (safe : Bool) :
    Except String (Option d) :=
  if (h5path = "/" ∨ h5path = "") ∧ safe = true then
    Except.ok none
  else
    match f h5path with
    | some x => Except.ok (some x)
    | none =>
      if safe = false then
        Except.error ("ERROR: HDF5 input file has no Dataset at " ++ h5path ++ ". Aborting.")
      else
        Except.ok none

/-- The Hdf2Mic_InitArgError message raised when a caught AttributeError ends a
reader setter (reader.py lines 103-107, 242-243). -/
def initArgMsg : String := "Tried to init reader attributes outside a with-statement."

/-- Embeds the cellFeatureDataClipFirstLine handling (reader.py lines 220-222):
when the option is set the first row of the (always two-dimensional at this
point) table is dropped. -/
def applyClip (clip : Bool) (m : List (List ℚ)) : List (List ℚ) :=
  if clip then m.drop 1 else m

/-- Embeds the Reader.group_angles setter (reader.py lines 199-243).  The
dataset is an optional two-dimensional table of rationals (rows are grains,
columns are Euler components); rot stands for rotMat.rotate applied to one row
(its floating-point trigonometry is not embedded here: the properties below
concern only whether and when the reader invokes it).  For dim == 2 the first
component of each row is kept (dset[..., 0], reshaped back to one column); for
dim == 3 the table is kept as read; for any other dim the local variable
angles stays None and the later attribute accesses on it raise AttributeError,
caught and re-raised as Hdf2Mic_InitArgError.  The rotation loop is guarded by
settings.rotate and self.dim == 30 and writes rot row componentwise for the
column count of the table. -/
def group_angles_set (rot : List ℚ → List ℚ) (rotate clip : Bool) (dim : Nat)
    (od : Option (List (List ℚ))) : Except String (Option (List (List ℚ))) :=
  let anglesE : Except String (Option (List (List ℚ))) :=
    match od with
    | none => Except.ok none
    | some m =>
      if dim == 2 then
        Except.ok (some (applyClip clip (m.map (fun row => [row.headD 0]))))
      else if dim == 3 then
        Except.ok (some (applyClip clip m))
      else
        Except.error initArgMsg
  match anglesE with
  | Except.error e => Except.error e
  | Except.ok angles =>
    if rotate && dim == 30 then
      match angles with
      | none => Except.error initArgMsg
      | some m => Except.ok (some (m.map (fun row => (rot row).take row.length)))
    else
      Except.ok angles

/-- The grain-properties tag (data.py line 52, DRI_TAG_GRAIN_PROPERTIES). -/
def DRI_TAG_GRAIN_PROPERTIES : String := "<grain-properties>"

/-- Embeds DriWriter._replace (writer_dri.py lines 41-53).  The membership test
tag in self.template only chooses between performing the replacement and
printing a warning; replacing a pattern that does not occur in the template
leaves the string unchanged, so the template update is
template.replace tag replacement in either branch.  The malformed-tag check
only prints a warning and is not modelled. -/
def dri_replace (template tag replacement : String) : String :=
  template.replace tag replacement

/-- Embeds the grain-properties block of DriWriter.write (writer_dri.py lines
113-120), acting on the current template text.  If the optional txt output
file f_txt is configured (non-empty), its existence on disk (modelled by the
isfile predicate, for os.path.isfile) is required: if missing, the writer
raises Hdf2Mic_DrivingFileTaggingError with the missing-output-file message;
if present, the path, first made absolute by abspath (for os.path.abspath)
when settings.makePathsAbsolute is set, replaces the grain-properties tag. -/
def dri_write_txt_block (isfile : String → Bool) (abspath : String → String)
    (makePathsAbsolute : Bool) (template : String) (f_txt : String) :
    Except String String :=
  if f_txt ≠ "" then
    if isfile f_txt then
      let p := if makePathsAbsolute then abspath f_txt else f_txt
      Except.ok (dri_replace template DRI_TAG_GRAIN_PROPERTIES p)
    else
      Except.error ("Error: driving template file requires output file " ++ f_txt
        ++ ", but was not found. Abort.")
  else
    Except.ok template

/-- One element of the zipped cell-data tuple list of the groups_celldata
setter (reader.py lines 448-451): the read numpy array (flattened, rational
components), the VTK dataName, the VTK dataType string and the dataset
attribute type. -/
structure CellTup where
  array : List ℚ
  dataName : String
  dataType : String
  attrType : DsetAttrType
  deriving DecidableEq

/-- A finished cell-data tuple (length 5 or 7 in the source): the base tuple,
the optional appended fieldArray pair (arrayName, numComponents) for FIELD
entries, and the appended tag. -/
structure CellTupFull where
  base : CellTup
  fieldArray : Option (String × Nat)
  tag : String
  deriving DecidableEq

/-- Comparison used by tuples.sort(key=lambda tup: ORDER[tup[3]])
(reader.py line 453). -/
def leKind (a b : CellTup) : Bool :=
  decide (VTK_DATASET_ATTRIBUTE_TYPE_ORDER a.attrType
    ≤ VTK_DATASET_ATTRIBUTE_TYPE_ORDER b.attrType)

/-- Comparison used by field_tuples.sort(key=lambda tup: tup[1])
(reader.py line 460). -/
def leName (a b : CellTup) : Bool :=
  decide (a.dataName ≤ b.dataName)

/-- Whether a tuple is a FIELD-kind entry. -/
def isFIELD (t : CellTup) : Bool := t.attrType == DsetAttrType.FIELD

/-- Embeds the sorting and field-spec pairing stage of the
Reader.groups_celldata setter (reader.py lines 447-464).  The tuple list is
sorted in place by dataset attribute type order (a stable sort); when FIELD
entries exist (count_field_arrays = number of FIELD entries in the declared
attribute types, checked earlier to be at most the number of supplied
fieldArrays), the trailing count_field_arrays tuples are re-sorted by
dataName, and each is then extended with the positionally corresponding
fieldArrays pair. -/
def celldata_paired (tuples : List CellTup) (fieldArrays : List (String × Nat)) :
    List (CellTup × Option (String × Nat)) :=
  let sortedK := tuples.mergeSort leKind
  let countFA := tuples.countP isFIELD
  if countFA ≠ 0 then
    let countNon := sortedK.length - countFA
    let fieldTuples := (sortedK.drop countNon).mergeSort leName
    ((sortedK.take countNon).map (fun t => (t, none))) ++
      ((fieldTuples.zip fieldArrays).map (fun p => (p.1, some p.2)))
  else
    sortedK.map (fun t => (t, none))

/-- Embeds the whole sorting stage of the Reader.groups_celldata setter
(reader.py lines 447-468): the sorted and field-paired tuples, each extended
with its tag, the tags list having been padded with empty strings up to the
number of attributes (line 364). -/
def groups_celldata_sort (tuples : List CellTup) (fieldArrays : List (String × Nat))
    (tags : List String) : List CellTupFull :=
  let tagsPadded := tags ++ List.replicate (tuples.length - tags.length) ""
  (celldata_paired tuples fieldArrays).zipWith
    (fun p tg => { base := p.1, fieldArray := p.2, tag := tg }) tagsPadded

namespace rotMat

/-- A 3x3 real matrix with explicit entries, embedding the 3x3 numpy arrays of
rotMat.py over exact reals. -/
structure Mat3 where
  a00 : ℝ
  a01 : ℝ
  a02 : ℝ
  a10 : ℝ
  a11 : ℝ
  a12 : ℝ
  a20 : ℝ
  a21 : ℝ
  a22 : ℝ

/-- Matrix product (np.dot on 3x3 arrays). -/
def mat3Mul (A B : Mat3) : Mat3 :=
  ⟨A.a00 * B.a00 + A.a01 * B.a10 + A.a02 * B.a20,
   A.a00 * B.a01 + A.a01 * B.a11 + A.a02 * B.a21,
   A.a00 * B.a02 + A.a01 * B.a12 + A.a02 * B.a22,
   A.a10 * B.a00 + A.a11 * B.a10 + A.a12 * B.a20,
   A.a10 * B.a01 + A.a11 * B.a11 + A.a12 * B.a21,
   A.a10 * B.a02 + A.a11 * B.a12 + A.a12 * B.a22,
   A.a20 * B.a00 + A.a21 * B.a10 + A.a22 * B.a20,
   A.a20 * B.a01 + A.a21 * B.a11 + A.a22 * B.a21,
   A.a20 * B.a02 + A.a21 * B.a12 + A.a22 * B.a22⟩

/-- Elemental rotation about z by phi (rotMat.py lines 38-41). -/
noncomputable def R0 (phi : ℝ) : Mat3 :=
  ⟨Real.cos phi, -Real.sin phi, 0,
   Real.sin phi, Real.cos phi, 0,
   0, 0, 1⟩

/-- Elemental rotation about the intermediate x axis by theta
(rotMat.py lines 43-46). -/
noncomputable def R1 (theta : ℝ) : Mat3 :=
  ⟨1, 0, 0,
   0, Real.cos theta, -Real.sin theta,
   0, Real.sin theta, Real.cos theta⟩

/-- Elemental rotation about the final z axis by psi (rotMat.py lines 48-51). -/
noncomputable def R2 (psi : ℝ) : Mat3 :=
  ⟨Real.cos psi, -Real.sin psi, 0,
   Real.sin psi, Real.cos psi, 0,
   0, 0, 1⟩

/-- The axis-permutation matrix Ram of rotMat.py lines 53-56. -/
def Ram : Mat3 := ⟨1, 0, 0, 0, 0, 1, 0, -1, 0⟩

/-- The axis-permutation matrix Rma of rotMat.py lines 57-60. -/
def Rma : Mat3 := ⟨1, 0, 0, 0, 0, -1, 0, 1, 0⟩

/-- Embeds eulerAnglesToRotationMatrix (rotMat.py lines 13-66): composes the
three elemental rotations into REuler and conjugates with the two permutation
matrices; when toMicress is false the source swaps the names Ram and Rma
before computing R = Rma * REuler * Ram, which is the else branch here. -/
noncomputable def eulerAnglesToRotationMatrix (phi theta psi : ℝ) (toMicress : Bool) : Mat3 :=
  let REuler := mat3Mul (mat3Mul (R0 phi) (R1 theta)) (R2 psi)
  match toMicress with
  | true => mat3Mul (mat3Mul Rma REuler) Ram
  | false => mat3Mul (mat3Mul Ram REuler) Rma

/-- The clamp-into-minus-one-to-one pattern used on cosTheta, sinPhi and
sinPsi (rotMat.py lines 84-87, 98-101, 114-117, 128-131): two sequential ifs,
equivalent to this nested form. -/
noncomputable def clampPM1 (x : ℝ) : ℝ := if x > 1 then 1 else if x < -1 then -1 else x

/-- The angle-recovery pattern of rotationMatrixToEulerAngles, repeated for
phi in the degenerate branch (rotMat.py lines 96-106), phi in the general
branch (lines 112-122) and psi (lines 126-136): clamp the sine, take arcsin,
mirror at pi when the cosine of the result disagrees with the given cosine by
more than tol, and pull results above pi (plus the 1e-6 slack) back by one
turn. -/
noncomputable def recoverAngle (tol sinA cosA : ℝ) : ℝ :=
  let a0 := Real.arcsin (clampPM1 sinA)
  let a1 := if |Real.cos a0 - cosA| > tol then Real.pi - a0 else a0
  if a1 > Real.pi + 1e-6 then a1 - 2 * Real.pi else a1

/-- The final fold applied to each recovered angle (rotMat.py lines 138-143):
add one turn to negative values. -/
noncomputable def foldTwoPi (x : ℝ) : ℝ := if x < 0 then x + 2 * Real.pi else x

/-- Conversion back to degrees (rotMat.py line 145). -/
noncomputable def rad2deg (x : ℝ) : ℝ := x / (Real.pi / 180)

/-- Embeds rotationMatrixToEulerAngles (rotMat.py lines 78-145): clamp the
[2,2] entry, recover theta via arccos with sinTheta = sqrt(1 - cos^2); in the
degenerate branch (|sinTheta| < 1e-5) set theta and psi to zero and recover
phi from the [1,0] and [0,0] entries with tolerance 5e-3; otherwise recover
phi from [0,2] and -[1,2] over sinTheta (tolerance 5e-3) and psi from [2,0]
and [2,1] over sinTheta (tolerance 1e-3); finally fold each angle into
[0, 2 pi) and convert to degrees.  The isRotationMatrix assert of line 79
holds exactly for the rotation matrices this embedding receives and is not
modelled. -/
noncomputable def rotationMatrixToEulerAngles (R : Mat3) : ℝ × ℝ × ℝ :=
  let cosTheta := clampPM1 R.a22
  let sinTheta := Real.sqrt (1 - cosTheta * cosTheta)
  let pts :=
    if |sinTheta| < 1e-5 then
      (recoverAngle 5e-3 R.a10 R.a00, (0 : ℝ), (0 : ℝ))
    else
      (recoverAngle 5e-3 (R.a02 / sinTheta) (-R.a12 / sinTheta),
        Real.arccos cosTheta,
        recoverAngle 1e-3 (R.a20 / sinTheta) (R.a21 / sinTheta))
  (rad2deg (foldTwoPi pts.1), rad2deg (foldTwoPi pts.2.1), rad2deg (foldTwoPi pts.2.2))

/-- Embeds the degree-to-radian conversion with the single negative fold at
the top of rotate (rotMat.py lines 151-156); the exact rational degree-space
image of the same loop is rotate_normalize_deg above. -/
noncomputable def deg2rad (v : ℝ) : ℝ :=
  let x := v * Real.pi / 180
  if x < 0 then x + 2 * Real.pi else x

/-- Embeds rotate (rotMat.py lines 150-158) over exact reals: convert the
degree triple to radians, build the (conjugated) rotation matrix, decompose
it back to degrees. -/
noncomputable def rotate (eulerDegree : ℝ × ℝ × ℝ) (toMICRESS : Bool) : ℝ × ℝ × ℝ :=
  rotationMatrixToEulerAngles
    (eulerAnglesToRotationMatrix (deg2rad eulerDegree.1) (deg2rad eulerDegree.2.1)
      (deg2rad eulerDegree.2.2) toMICRESS)

end rotMat

/-- Auxiliary: on two one-dimensional shapes the dimension comparison reduces
to equality of the single extents. -/
theorem has_equal_dimensions_singleton (a b : Nat) :
    has_equal_dimensions [a] [b] = (a == b) := by
  unfold has_equal_dimensions
  by_cases h : a = b
  · simp [h]
  · simp [h]

/-- C3: a spacing triple whose components are not all equal is rejected by the
spacing setter with the non-cubic-cells error, and a triple of pairwise equal
components is accepted. -/
theorem spacing_cubic_invariant (v : Spacing3) :
    (∃ e, spacing_set v = Except.error e) ↔ ¬ (v.s0 = v.s1 ∧ v.s1 = v.s2) := by
  unfold spacing_set
  by_cases h : v.s1 = v.s0 ∧ v.s2 = v.s0
  · rw [if_neg (fun hc => hc ⟨rfl, h⟩)]
    exact iff_of_false
      (by rintro ⟨e, he⟩; exact Except.noConfusion he)
      (fun hne => hne ⟨h.1.symm, h.1.trans h.2.symm⟩)
  · rw [if_pos (fun hc => h hc.2)]
    exact iff_of_true ⟨_, rfl⟩
      (fun hc => h ⟨hc.1.symm, (hc.1.trans hc.2).symm⟩)

/-- C4: for grain tables with at least one declared angle component (and the
phases table in the one-column form the reader produces), the angles-phases
comparison raises the dimension-mismatch error exactly when the two row counts
(grain counts) differ. -/
theorem angles_phases_row_mismatch (angles phases : Table2)
    (hA : 0 < angles.cols) (_hP : 0 < phases.cols) :
    (∃ e, compare_angles_phases angles phases = Except.error e)
      ↔ angles.rows ≠ phases.rows := by
  unfold compare_angles_phases
  rcases eq_or_ne angles.rows phases.rows with h | h
  · simp [h, has_equal_dimensions_singleton]
  · have hall : ¬ (List.range angles.cols).all
        (fun _ => has_equal_dimensions [angles.rows] [phases.rows]) = true := by
      simp only [List.all_eq_true, has_equal_dimensions_singleton]
      intro hc
      have h0 : (0 : Nat) ∈ List.range angles.cols := List.mem_range.mpr hA
      have := hc 0 h0
      simp only [beq_iff_eq] at this
      exact h this
    simp only [if_neg hall]
    exact ⟨fun _ => h, fun _ => ⟨_, rfl⟩⟩

/-- C4 witness: a three-column angle table with 2 rows against a one-column
phases table with 3 rows is rejected. -/
theorem angles_phases_row_mismatch_witness :
    ∃ e, compare_angles_phases ⟨2, 3⟩ ⟨3, 1⟩ = Except.error e :=
  (angles_phases_row_mismatch ⟨2, 3⟩ ⟨3, 1⟩ (by decide) (by decide)).mpr (by decide)

/-- C6 counterexample: the input angle 400 degrees is left at 400 by the input
normalization of rotate (the fold only adds one full turn to negative values),
so it is not brought into the half-open interval from 0 to 360. -/
theorem rotate_normalize_counterexample :
    ¬ (0 ≤ rotate_normalize_deg 400 ∧ rotate_normalize_deg 400 < 360) := by
  norm_num [rotate_normalize_deg]

/-- C6 amended: every input angle strictly between -360 and 360 degrees is
mapped by the normalization of rotate into the half-open interval from 0 to
360 (negative angles gain one full turn); the fold is applied to the radian
value, which coincides with folding in degree space. -/
theorem rotate_normalize_range (d : ℚ) (h1 : -360 < d) (h2 : d < 360) :
    0 ≤ rotate_normalize_deg d ∧ rotate_normalize_deg d < 360 := by
  unfold rotate_normalize_deg
  split <;> constructor <;> linarith

/-- C6 amended witness: minus 90 degrees normalizes into the interval. -/
theorem rotate_normalize_range_witness :
    0 ≤ rotate_normalize_deg (-90) ∧ rotate_normalize_deg (-90) < 360 :=
  rotate_normalize_range (-90) (by norm_num) (by norm_num)

/-- C7 counterexample: with the rotate option on and dim equal 3, cell counts
(3, 1, 2) are stored as (4, 3, 2), not as the per-axis point counts
(4, 2, 3): the second and third axes are exchanged. -/
theorem grid_dimensions_counterexample :
    (group_dimensions_set true 3 3 1 2).dimensions ≠ [3 + 1, 1 + 1, 2 + 1] := by
  decide

/-- C7 amended: the stored dimensions are the per-axis point counts (cell
count plus one per axis), except that with the rotate option on and dim equal
3 the second and third point counts are exchanged; the cell-data size is the
product of the cell counts; and for cell counts (3, 3, 1) in a 2-D run the
serializer emits the line DIMENSIONS 4 4 2. -/
theorem grid_dimensions_pointcounts (rotate : Bool) (dim c0 c1 c2 : Nat) :
    (¬ (rotate = true ∧ dim = 3) →
        (group_dimensions_set rotate dim c0 c1 c2).dimensions = [c0 + 1, c1 + 1, c2 + 1])
    ∧ ((rotate = true ∧ dim = 3) →
        (group_dimensions_set rotate dim c0 c1 c2).dimensions = [c0 + 1, c2 + 1, c1 + 1])
    ∧ (group_dimensions_set rotate dim c0 c1 c2).celldata_size = c0 * c1 * c2
    ∧ dimensions_line (group_dimensions_set rotate 2 3 3 1).dimensions = "DIMENSIONS 4 4 2" := by
  refine ⟨?_, ?_, rfl, ?_⟩
  · intro h
    have hb : (rotate && dim == 3) = false := by
      cases rotate
      · rfl
      · simp only [Bool.true_and, beq_eq_false_iff_ne, ne_eq]
        intro hd
        exact h ⟨rfl, hd⟩
    simp [group_dimensions_set, hb]
  · intro h
    obtain ⟨hr, hd⟩ := h
    subst hr; subst hd
    rfl
  · cases rotate <;> rfl

/-- C7 amended witness: concrete instance of the swapped branch. -/
theorem grid_dimensions_pointcounts_witness :
    (group_dimensions_set true 3 5 6 7).dimensions = [5 + 1, 7 + 1, 6 + 1] :=
  (grid_dimensions_pointcounts true 3 5 6 7).2.1 ⟨rfl, rfl⟩

/-- C9 counterexample: a mandatory (safe = false) lookup of the root path is
not treated as absent: the special case falls through and the file is queried,
so an adapter that (like h5py on the root group) yields an object at the root
path has that object returned. -/
theorem dset_root_queried_counterexample :
    dset (fun p => if p = "/" then some 0 else none) "/" false = Except.ok (some 0) := by
  rfl

/-- C9 amended: a path equal to the root path or to the empty string is
short-circuited to absent only for optional (safe) lookups; a mandatory lookup
of such a path queries the source file like any other path, returning whatever
dataset the file yields there and failing with the dataset-not-found error
when it yields none. -/
theorem dset_absent_only_when_safe {d : Type} (f : String → Option d) (p : String)
    (hp : p = "/" ∨ p = "") :
    dset f p true = Except.ok none
    ∧ (∀ x, f p = some x → dset f p false = Except.ok (some x))
    ∧ (f p = none → ∃ e, dset f p false = Except.error e) := by
  refine ⟨?_, ?_, ?_⟩
  · simp [dset, hp]
  · intro x hx
    simp [dset, hx]
  · intro hx
    refine ⟨"ERROR: HDF5 input file has no Dataset at " ++ p ++ ". Aborting.", ?_⟩
    simp [dset, hx]

/-- C9 amended witness: optional lookup of the root path in an empty file. -/
theorem dset_absent_only_when_safe_witness :
    dset (fun _ => (none : Option Nat)) "/" true = Except.ok none :=
  (dset_absent_only_when_safe (fun _ => (none : Option Nat)) "/" (Or.inl rfl)).1

/-- C8: when a grain-properties output file is configured (non-empty path), a
missing file at substitution time fails with the missing-output-file error,
and an existing file has the grain-properties tag replaced by its path, made
absolute exactly when the make-paths-absolute option is set. -/
theorem dri_grain_properties_substitution (isfile : String → Bool)
    (abspath : String → String) (makeAbs : Bool) (template f_txt : String)
    (hcfg : f_txt ≠ "") :
    (isfile f_txt = false →
        ∃ e, dri_write_txt_block isfile abspath makeAbs template f_txt = Except.error e)
    ∧ (isfile f_txt = true →
        dri_write_txt_block isfile abspath makeAbs template f_txt
          = Except.ok (template.replace DRI_TAG_GRAIN_PROPERTIES
              (if makeAbs then abspath f_txt else f_txt))) := by
  constructor
  · intro h
    refine ⟨"Error: driving template file requires output file " ++ f_txt
      ++ ", but was not found. Abort.", ?_⟩
    simp [dri_write_txt_block, hcfg, h]
  · intro h
    simp [dri_write_txt_block, dri_replace, hcfg, h]

/-- C8 witness: existing file with absolute-path option on. -/
theorem dri_grain_properties_substitution_witness :
    dri_write_txt_block (fun _ => true) (fun s => "/abs/" ++ s) true
        "run <grain-properties> end" "out.txt"
      = Except.ok ("run <grain-properties> end".replace DRI_TAG_GRAIN_PROPERTIES
          "/abs/out.txt") :=
  (dri_grain_properties_substitution (fun _ => true) (fun s => "/abs/" ++ s) true
    "run <grain-properties> end" "out.txt" (by decide)).2 rfl

/-- C5 counterexample: with the rotate option enabled and the legal dimension
3, the reader stores the orientation table unchanged, not the rotated table
the claim requires: for the rotation function that adds one to every
component, the stored value for the single grain (0, 0, 0) is (0, 0, 0) while
the rotated row is (1, 1, 1). -/
theorem group_angles_rotation_counterexample :
    group_angles_set (fun r => r.map (fun x => x + 1)) true false 3 (some [[0, 0, 0]])
        = Except.ok (some [[0, 0, 0]])
    ∧ ([0, 0, 0] : List ℚ).map (fun x => x + 1) = [1, 1, 1]
    ∧ ([[(0 : ℚ), 0, 0]] : List (List ℚ)) ≠ [[1, 1, 1]] := by
  refine ⟨rfl, by norm_num, by norm_num⟩

/-- C5 amended: the per-grain rotation block of the orientation reader is
guarded by dim == 30, which no legal dimension satisfies, so for dim in
(1, 2, 3) the stored angles never depend on the rotation function or on the
rotate option. -/
theorem group_angles_rotation_inert (rot : List ℚ → List ℚ) (rotate clip : Bool)
    (dim : Nat) (od : Option (List (List ℚ)))
    (hdim : dim = 1 ∨ dim = 2 ∨ dim = 3) :
    group_angles_set rot rotate clip dim od
      = group_angles_set (fun r => r) false clip dim od := by
  have h30 : (dim == 30) = false := by
    rcases hdim with h | h | h <;> subst h <;> rfl
  unfold group_angles_set
  simp [h30]

/-- C5 amended witness: rotate on, dim 2, two grains. -/
theorem group_angles_rotation_inert_witness :
    group_angles_set (fun r => r.map (fun x => x + 1)) true true 2 (some [[5, 6], [7, 8]])
      = group_angles_set (fun r => r) false true 2 (some [[5, 6], [7, 8]]) :=
  group_angles_rotation_inert _ true true 2 _ (Or.inr (Or.inl rfl))

/-- Every attribute-type sort key is at most the FIELD key. -/
theorem order_le_four (t : DsetAttrType) : VTK_DATASET_ATTRIBUTE_TYPE_ORDER t ≤ 4 := by
  cases t <;> decide

/-- Only FIELD carries the top sort key. -/
theorem order_eq_four (t : DsetAttrType) :
    VTK_DATASET_ATTRIBUTE_TYPE_ORDER t = 4 ↔ t = DsetAttrType.FIELD := by
  cases t <;> simp [VTK_DATASET_ATTRIBUTE_TYPE_ORDER]

/-- The FIELD test in propositional form. -/
theorem isFIELD_iff (t : CellTup) : isFIELD t = true ↔ t.attrType = DsetAttrType.FIELD := by
  simp [isFIELD]

/-- The kind comparison is transitive. -/
theorem leKind_trans : ∀ a b c : CellTup, leKind a b → leKind b c → leKind a c := by
  intro a b c h1 h2
  simp only [leKind, decide_eq_true_eq] at *
  omega

/-- The kind comparison is total. -/
theorem leKind_total : ∀ a b : CellTup, leKind a b || leKind b a := by
  intro a b
  simp only [leKind, Bool.or_eq_true, decide_eq_true_eq]
  omega

/-- The dataName comparison is transitive. -/
theorem leName_trans : ∀ a b c : CellTup, leName a b → leName b c → leName a c := by
  intro a b c h1 h2
  simp only [leName, decide_eq_true_eq] at *
  exact le_trans h1 h2

/-- The dataName comparison is total. -/
theorem leName_total : ∀ a b : CellTup, leName a b || leName b a := by
  intro a b
  simp only [leName, Bool.or_eq_true, decide_eq_true_eq]
  exact le_total a.dataName b.dataName

/-- Stability of the embedded Python sort, in filter form: filtering by a
predicate whose holders are mutually tied under the comparison commutes with
sorting, i.e. the sort keeps the relative declaration order of such
elements. -/
theorem mergeSort_filter_of_const {α : Type} {le : α → α → Bool} {p : α → Bool}
    (htrans : ∀ a b c, le a b → le b c → le a c)
    (htotal : ∀ a b, le a b || le b a)
    (hconst : ∀ a b, p a = true → p b = true → le a b = true)
    (l : List α) : (l.mergeSort le).filter p = l.filter p := by
  have hsub : List.Sublist (l.filter p) l := List.filter_sublist l
  have hpw : (l.filter p).Pairwise (fun a b => le a b) :=
    List.pairwise_of_forall_mem_list (fun a ha b hb =>
      hconst a b (List.of_mem_filter ha) (List.of_mem_filter hb))
  have hsl : List.Sublist (l.filter p) (l.mergeSort le) :=
    List.sublist_mergeSort htrans htotal hpw hsub
  have hlen : ((l.mergeSort le).filter p).length = (l.filter p).length := by
    rw [← List.countP_eq_length_filter, ← List.countP_eq_length_filter]
    exact (List.mergeSort_perm l le).countP_eq p
  have hself : (l.filter p).filter p = l.filter p :=
    List.filter_eq_self.mpr (fun a ha => List.of_mem_filter ha)
  have hsl2 : List.Sublist (l.filter p) ((l.mergeSort le).filter p) := by
    have h2 := hsl.filter p
    rwa [hself] at h2
  exact (hsl2.eq_of_length hlen.symm).symm

/-- A list sorted under le splits as its non-p part followed by its p part
whenever p is upward closed with respect to le. -/
theorem sorted_split_filter {α : Type} {le : α → α → Bool} {p : α → Bool}
    (hup : ∀ a b, le a b = true → p a = true → p b = true)
    {s : List α} (hs : s.Pairwise (fun a b => le a b)) :
    s = s.filter (fun a => !p a) ++ s.filter p := by
  induction hs with
  | nil => rfl
  | @cons a t ha _hpw ih =>
    by_cases hpa : p a = true
    · have hall : ∀ b ∈ t, p b = true := fun b hb => hup a b (ha b hb) hpa
      have h1 : t.filter (fun x => !p x) = [] :=
        List.filter_eq_nil_iff.mpr (fun b hb => by simp [hall b hb])
      have h2 : t.filter p = t := List.filter_eq_self.mpr hall
      simp [List.filter_cons, hpa, h1, h2]
    · have hpa2 : p a = false := by simpa using hpa
      simp only [List.filter_cons, hpa2, Bool.not_false, if_pos trivial, if_neg, cond_true,
        cond_false]
      rw [List.cons_append]
      exact congrArg (List.cons a) ih

/-- Mapping a left-projection over a zipWith whose right list is long enough
reduces to mapping over the left list. -/
theorem map_zipWith_left {α β γ δ : Type} (f : α → β → γ) (g : γ → δ) (g2 : α → δ)
    (hg : ∀ a b, g (f a b) = g2 a) :
    ∀ (P : List α) (T : List β), P.length ≤ T.length →
      (List.zipWith f P T).map g = P.map g2 := by
  intro P
  induction P with
  | nil =>
    intro T _
    rfl
  | cons p P ih =>
    intro T h
    cases T with
    | nil => simp at h
    | cons t T =>
      simp only [List.zipWith_cons_cons, List.map_cons, hg]
      rw [ih T (by simpa using h)]

/-- FIELD membership is upward closed with respect to the kind comparison:
everything at or above a FIELD entry is a FIELD entry. -/
theorem leKind_up_isFIELD :
    ∀ a b : CellTup, leKind a b = true → isFIELD a = true → isFIELD b = true := by
  intro a b hab hfb
  have h1 : VTK_DATASET_ATTRIBUTE_TYPE_ORDER a.attrType
      ≤ VTK_DATASET_ATTRIBUTE_TYPE_ORDER b.attrType := by
    simpa [leKind] using hab
  have h2 : a.attrType = DsetAttrType.FIELD := (isFIELD_iff a).mp hfb
  have h3 : VTK_DATASET_ATTRIBUTE_TYPE_ORDER b.attrType = 4 :=
    Nat.le_antisymm (order_le_four _) (by rw [h2] at h1; exact h1)
  exact (isFIELD_iff b).mpr ((order_eq_four _).mp h3)

/-- The kind-sorted tuple list is its non-FIELD block followed by its FIELD
block: FIELD entries form a contiguous suffix after the first sort. -/
theorem kind_sorted_split (l : List CellTup) :
    l.mergeSort leKind
      = (l.mergeSort leKind).filter (fun t => !isFIELD t)
        ++ (l.mergeSort leKind).filter isFIELD :=
  sorted_split_filter leKind_up_isFIELD
    (List.sorted_mergeSort leKind_trans leKind_total l)

/-- The FIELD block of the kind-sorted list has length count_field_arrays. -/
theorem filter_isFIELD_length (l : List CellTup) :
    ((l.mergeSort leKind).filter isFIELD).length = l.countP isFIELD := by
  rw [← List.countP_eq_length_filter]
  exact (List.mergeSort_perm l leKind).countP_eq isFIELD

/-- Taking the non-FIELD count from the kind-sorted list yields exactly its
non-FIELD block. -/
theorem kind_sorted_take (l : List CellTup) :
    (l.mergeSort leKind).take ((l.mergeSort leKind).length - l.countP isFIELD)
      = (l.mergeSort leKind).filter (fun t => !isFIELD t) := by
  have hsplit := kind_sorted_split l
  have hlenB := filter_isFIELD_length l
  set A := (l.mergeSort leKind).filter (fun t => !isFIELD t) with hA
  set B := (l.mergeSort leKind).filter isFIELD with hB
  rw [hsplit, List.length_append, ← hlenB, Nat.add_sub_cancel]
  exact List.take_left A B

/-- Dropping the non-FIELD count from the kind-sorted list yields exactly its
FIELD block. -/
theorem kind_sorted_drop (l : List CellTup) :
    (l.mergeSort leKind).drop ((l.mergeSort leKind).length - l.countP isFIELD)
      = (l.mergeSort leKind).filter isFIELD := by
  have hsplit := kind_sorted_split l
  have hlenB := filter_isFIELD_length l
  set A := (l.mergeSort leKind).filter (fun t => !isFIELD t) with hA
  set B := (l.mergeSort leKind).filter isFIELD with hB
  rw [hsplit, List.length_append, ← hlenB, Nat.add_sub_cancel]
  exact List.drop_left A B

/-- Attribute components of the paired list: the kind-sorted non-FIELD block
followed by the name-sorted FIELD block. -/
theorem celldata_paired_fst (l : List CellTup) (fas : List (String × Nat))
    (hfa : l.countP isFIELD ≤ fas.length) :
    (celldata_paired l fas).map Prod.fst
      = (l.mergeSort leKind).filter (fun t => !isFIELD t)
        ++ ((l.mergeSort leKind).filter isFIELD).mergeSort leName := by
  have hft : ((l.mergeSort leKind).drop
      ((l.mergeSort leKind).length - l.countP isFIELD)).mergeSort leName
        = ((l.mergeSort leKind).filter isFIELD).mergeSort leName := by
    rw [kind_sorted_drop]
  by_cases hc : l.countP isFIELD ≠ 0
  · have hftlen : (((l.mergeSort leKind).drop
        ((l.mergeSort leKind).length - l.countP isFIELD)).mergeSort leName).length
          ≤ fas.length := by
      rw [List.length_mergeSort, List.length_drop, List.length_mergeSort]
      have := List.countP_le_length (p := isFIELD) (l := l)
      omega
    unfold celldata_paired
    simp only [if_pos hc]
    rw [List.map_append, List.map_map, List.map_map]
    have h1 : (Prod.fst ∘ fun t : CellTup => (t, (none : Option (String × Nat))))
        = fun t => t := rfl
    have h2 : (Prod.fst ∘ fun p : CellTup × (String × Nat) => (p.1, some p.2))
        = Prod.fst := rfl
    rw [h1, h2, List.map_id', List.map_fst_zip _ _ hftlen, kind_sorted_take, hft]
  · push_neg at hc
    have hB : (l.mergeSort leKind).filter isFIELD = [] :=
      List.eq_nil_of_length_eq_zero (by rw [filter_isFIELD_length]; exact hc)
    have hA : (l.mergeSort leKind).filter (fun t => !isFIELD t) = l.mergeSort leKind := by
      have h := kind_sorted_split l
      rw [hB, List.append_nil] at h
      exact h.symm
    unfold celldata_paired
    rw [if_neg (fun h => h hc), List.map_map, hA, hB]
    have h1 : (Prod.fst ∘ fun t : CellTup => (t, (none : Option (String × Nat))))
        = fun t => t := rfl
    rw [h1, List.map_id']
    simp

/-- Field-spec components of the paired list: one none per non-FIELD entry,
then the supplied field specs in their given order. -/
theorem celldata_paired_snd (l : List CellTup) (fas : List (String × Nat))
    (hn : l.countP isFIELD = fas.length) :
    (celldata_paired l fas).map Prod.snd
      = List.replicate (l.length - l.countP isFIELD) (none : Option (String × Nat))
        ++ fas.map some := by
  by_cases hc : l.countP isFIELD ≠ 0
  · have hftlen : fas.length ≤ (((l.mergeSort leKind).drop
        ((l.mergeSort leKind).length - l.countP isFIELD)).mergeSort leName).length := by
      rw [List.length_mergeSort, List.length_drop, List.length_mergeSort]
      have := List.countP_le_length (p := isFIELD) (l := l)
      omega
    have htake : ((l.mergeSort leKind).take
        ((l.mergeSort leKind).length - l.countP isFIELD)).length
          = l.length - l.countP isFIELD := by
      rw [kind_sorted_take]
      have hsplit := kind_sorted_split l
      have hlenB := filter_isFIELD_length l
      have hs := congrArg List.length hsplit
      rw [List.length_append, List.length_mergeSort, hlenB] at hs
      omega
    unfold celldata_paired
    simp only [if_pos hc]
    rw [List.map_append, List.map_map, List.map_map]
    have h1 : (Prod.snd ∘ fun t : CellTup => (t, (none : Option (String × Nat))))
        = fun _ => (none : Option (String × Nat)) := rfl
    have h2 : (Prod.snd ∘ fun p : CellTup × (String × Nat) => (p.1, some p.2))
        = fun p => some p.2 := rfl
    rw [h1, h2, List.map_const', htake]
    have h4 := List.map_snd_zip (((l.mergeSort leKind).drop
      ((l.mergeSort leKind).length - l.countP isFIELD)).mergeSort leName) fas hftlen
    have h3 : ((((l.mergeSort leKind).drop
        ((l.mergeSort leKind).length - l.countP isFIELD)).mergeSort leName).zip fas).map
          (fun p => some p.2)
        = fas.map some := by
      have h5 : ((((l.mergeSort leKind).drop
          ((l.mergeSort leKind).length - l.countP isFIELD)).mergeSort leName).zip fas).map
            (fun p => some p.2)
          = (((((l.mergeSort leKind).drop
              ((l.mergeSort leKind).length - l.countP isFIELD)).mergeSort leName).zip
                fas).map Prod.snd).map some := by
        rw [List.map_map]
        rfl
      rw [h5, h4]
    rw [h3]
  · push_neg at hc
    have hfas : fas = [] := by
      have h0 : fas.length = 0 := by omega
      exact List.eq_nil_of_length_eq_zero h0
    subst hfas
    unfold celldata_paired
    rw [if_neg (fun h => h hc), List.map_map]
    have h1 : (Prod.snd ∘ fun t : CellTup => (t, (none : Option (String × Nat))))
        = fun _ => (none : Option (String × Nat)) := rfl
    rw [h1, List.map_const', List.length_mergeSort]
    simp [hc]

/-- The paired list has exactly one entry per declared attribute. -/
theorem celldata_paired_length (l : List CellTup) (fas : List (String × Nat))
    (hfa : l.countP isFIELD ≤ fas.length) :
    (celldata_paired l fas).length = l.length := by
  have h := congrArg List.length (celldata_paired_fst l fas hfa)
  rw [List.length_map, List.length_append, List.length_mergeSort,
    filter_isFIELD_length] at h
  have hsplit := congrArg List.length (kind_sorted_split l)
  rw [List.length_append, List.length_mergeSort, filter_isFIELD_length] at hsplit
  have hcl := List.countP_le_length (p := isFIELD) (l := l)
  omega

/-- The padded tag list is never shorter than the paired list. -/
theorem tags_padded_long_enough (l : List CellTup) (fas : List (String × Nat))
    (tags : List String) (hfa : l.countP isFIELD ≤ fas.length) :
    (celldata_paired l fas).length
      ≤ (tags ++ List.replicate (l.length - tags.length) "").length := by
  rw [celldata_paired_length l fas hfa, List.length_append, List.length_replicate]
  omega

/-- Attribute part of the finished tuple list: the kind-sorted non-FIELD block
followed by the name-sorted FIELD block. -/
theorem groups_celldata_map_base (l : List CellTup) (fas : List (String × Nat))
    (tags : List String) (hfa : l.countP isFIELD ≤ fas.length) :
    (groups_celldata_sort l fas tags).map (fun t => t.base)
      = (l.mergeSort leKind).filter (fun t => !isFIELD t)
        ++ ((l.mergeSort leKind).filter isFIELD).mergeSort leName := by
  unfold groups_celldata_sort
  dsimp only
  have hzip := map_zipWith_left
    (fun (p : CellTup × Option (String × Nat)) (tg : String) =>
      ({ base := p.1, fieldArray := p.2, tag := tg } : CellTupFull))
    (fun t => t.base) Prod.fst (fun a b => rfl)
    (celldata_paired l fas) (tags ++ List.replicate (l.length - tags.length) "")
    (tags_padded_long_enough l fas tags hfa)
  rw [hzip]
  exact celldata_paired_fst l fas hfa

/-- Field-spec part of the finished tuple list: none for each non-FIELD entry,
then the supplied field specs in their given order. -/
theorem groups_celldata_map_fieldArray (l : List CellTup) (fas : List (String × Nat))
    (tags : List String) (hn : l.countP isFIELD = fas.length) :
    (groups_celldata_sort l fas tags).map (fun t => t.fieldArray)
      = List.replicate (l.length - l.countP isFIELD) (none : Option (String × Nat))
        ++ fas.map some := by
  unfold groups_celldata_sort
  dsimp only
  have hzip := map_zipWith_left
    (fun (p : CellTup × Option (String × Nat)) (tg : String) =>
      ({ base := p.1, fieldArray := p.2, tag := tg } : CellTupFull))
    (fun t => t.fieldArray) Prod.snd (fun a b => rfl)
    (celldata_paired l fas) (tags ++ List.replicate (l.length - tags.length) "")
    (tags_padded_long_enough l fas tags (le_of_eq hn))
  rw [hzip]
  exact celldata_paired_snd l fas hn

/-- C1: for every cell-attribute sequence accepted by the builder (the FIELD
count does not exceed the supplied field specs), the classifier returns the
same attributes (a permutation), ordered by the fixed kind precedence
SCALARS, VECTORS, NORMALS, TENSORS, FIELD; ties among equal non-FIELD kinds
keep the original declaration order; the FIELD entries form a contiguous
suffix, sorted lexicographically by the group name under which their arrays
are emitted (the dataName), declaration order among equal group names. -/
theorem celldata_classifier_order (l : List CellTup) (fas : List (String × Nat))
    (tags : List String) (hfa : l.countP isFIELD ≤ fas.length) :
    ((groups_celldata_sort l fas tags).map (fun t => t.base)).Perm l
    ∧ (((groups_celldata_sort l fas tags).map (fun t => t.base)).map
        (fun t => VTK_DATASET_ATTRIBUTE_TYPE_ORDER t.attrType)).Pairwise (· ≤ ·)
    ∧ ((groups_celldata_sort l fas tags).map (fun t => t.base))
        = (((groups_celldata_sort l fas tags).map (fun t => t.base)).filter
            (fun t => !isFIELD t))
          ++ (((groups_celldata_sort l fas tags).map (fun t => t.base)).filter isFIELD)
    ∧ (∀ k, k ≠ DsetAttrType.FIELD →
        ((groups_celldata_sort l fas tags).map (fun t => t.base)).filter
            (fun t => t.attrType == k)
          = l.filter (fun t => t.attrType == k))
    ∧ ((((groups_celldata_sort l fas tags).map (fun t => t.base)).filter isFIELD).map
        (fun t => t.dataName)).Pairwise (· ≤ ·)
    ∧ (∀ nm : String,
        ((groups_celldata_sort l fas tags).map (fun t => t.base)).filter
            (fun t => isFIELD t && (t.dataName == nm))
          = l.filter (fun t => isFIELD t && (t.dataName == nm))) := by
  have hm := groups_celldata_map_base l fas tags hfa
  set s := l.mergeSort leKind with hs
  set A := s.filter (fun t => !isFIELD t) with hA
  set B := s.filter isFIELD with hB
  set BS := B.mergeSort leName with hBS
  have hmemA : ∀ t ∈ A, isFIELD t = false := by
    intro t ht
    rw [hA] at ht
    have h1 := List.of_mem_filter ht
    simpa using h1
  have hmemB : ∀ t ∈ B, isFIELD t = true := by
    intro t ht
    rw [hB] at ht
    exact List.of_mem_filter ht
  have hmemBS : ∀ t ∈ BS, isFIELD t = true := by
    intro t ht
    rw [hBS] at ht
    exact hmemB t (List.mem_mergeSort.mp ht)
  have hsort : s.Pairwise (fun a b => leKind a b) := by
    rw [hs]
    exact List.sorted_mergeSort leKind_trans leKind_total l
  have hsortA : A.Pairwise (fun a b => leKind a b) :=
    List.Pairwise.sublist (List.filter_sublist s) hsort
  have hsortBS : BS.Pairwise (fun a b => leName a b) :=
    List.sorted_mergeSort leName_trans leName_total B
  have hmA : (A ++ BS).filter (fun t => !isFIELD t) = A := by
    rw [List.filter_append,
      List.filter_eq_self.mpr (fun t ht => by simp [hmemA t ht]),
      List.filter_eq_nil_iff.mpr (fun t ht => by simp [hmemBS t ht]),
      List.append_nil]
  have hmB : (A ++ BS).filter isFIELD = BS := by
    rw [List.filter_append,
      List.filter_eq_nil_iff.mpr (fun t ht => by simp [hmemA t ht]),
      List.filter_eq_self.mpr (fun t ht => hmemBS t ht),
      List.nil_append]
  refine ⟨?_, ?_, ?_, ?_, ?_, ?_⟩
  · rw [hm]
    have h1 : BS.Perm B := by
      rw [hBS]
      exact List.mergeSort_perm B leName
    have h2 : (A ++ BS).Perm (A ++ B) := List.Perm.append_left A h1
    have h3 : A ++ B = s := by
      rw [hA, hB, hs]
      exact (kind_sorted_split l).symm
    have h4 : s.Perm l := by
      rw [hs]
      exact List.mergeSort_perm l leKind
    exact h2.trans (by rw [h3]; exact h4)
  · rw [hm, List.pairwise_map, List.pairwise_append]
    refine ⟨?_, ?_, ?_⟩
    · exact hsortA.imp (fun h => by simpa [leKind] using h)
    · apply List.pairwise_of_forall_mem_list
      intro a ha b hb
      have ha4 : VTK_DATASET_ATTRIBUTE_TYPE_ORDER a.attrType = 4 :=
        (order_eq_four _).mpr ((isFIELD_iff a).mp (hmemBS a ha))
      have hb4 : VTK_DATASET_ATTRIBUTE_TYPE_ORDER b.attrType = 4 :=
        (order_eq_four _).mpr ((isFIELD_iff b).mp (hmemBS b hb))
      rw [ha4, hb4]
    · intro a _ha b hb
      have hb4 : VTK_DATASET_ATTRIBUTE_TYPE_ORDER b.attrType = 4 :=
        (order_eq_four _).mpr ((isFIELD_iff b).mp (hmemBS b hb))
      rw [hb4]
      exact order_le_four _
  · rw [hm, hmA, hmB]
  · intro k hk
    rw [hm, List.filter_append]
    have hBSk : BS.filter (fun t => t.attrType == k) = [] := by
      apply List.filter_eq_nil_iff.mpr
      intro t ht
      have h1 : t.attrType = DsetAttrType.FIELD := (isFIELD_iff t).mp (hmemBS t ht)
      simp only [h1, beq_iff_eq]
      exact fun h => hk h.symm
    have hAk : A.filter (fun t => t.attrType == k)
        = s.filter (fun t => t.attrType == k) := by
      rw [hA, List.filter_filter]
      apply List.filter_congr
      intro t _ht
      by_cases hkt : t.attrType = k
      · have hf : isFIELD t = false := by
          simp only [isFIELD, hkt, beq_eq_false_iff_ne, ne_eq]
          exact fun h => hk h
        simp [hkt, hf]
      · simp [hkt]
    have hstab : s.filter (fun t => t.attrType == k)
        = l.filter (fun t => t.attrType == k) := by
      rw [hs]
      apply mergeSort_filter_of_const leKind_trans leKind_total
      intro a b hpa hpb
      have h1 : a.attrType = k := by simpa using hpa
      have h2 : b.attrType = k := by simpa using hpb
      simp [leKind, h1, h2]
    rw [hBSk, hAk, hstab, List.append_nil]
  · rw [hm, hmB, List.pairwise_map]
    exact hsortBS.imp (fun h => by simpa [leName] using h)
  · intro nm
    rw [hm, List.filter_append]
    have hAn : A.filter (fun t => isFIELD t && (t.dataName == nm)) = [] := by
      apply List.filter_eq_nil_iff.mpr
      intro t ht
      simp [hmemA t ht]
    have hBSn : BS.filter (fun t => isFIELD t && (t.dataName == nm))
        = B.filter (fun t => isFIELD t && (t.dataName == nm)) := by
      rw [hBS]
      apply mergeSort_filter_of_const leName_trans leName_total
      intro a b hpa hpb
      have h1 : a.dataName = nm := by
        have h3 := (Bool.and_eq_true _ _).mp hpa
        simpa using h3.2
      have h2 : b.dataName = nm := by
        have h3 := (Bool.and_eq_true _ _).mp hpb
        simpa using h3.2
      simp [leName, h1, h2]
    have hBn : B.filter (fun t => isFIELD t && (t.dataName == nm))
        = s.filter (fun t => isFIELD t && (t.dataName == nm)) := by
      rw [hB, List.filter_filter]
      apply List.filter_congr
      intro t _ht
      cases ha : isFIELD t <;> simp [ha]
    have hstab : s.filter (fun t => isFIELD t && (t.dataName == nm))
        = l.filter (fun t => isFIELD t && (t.dataName == nm)) := by
      rw [hs]
      apply mergeSort_filter_of_const leKind_trans leKind_total
      intro a b hpa hpb
      have h1 : a.attrType = DsetAttrType.FIELD :=
        (isFIELD_iff a).mp ((Bool.and_eq_true _ _).mp hpa).1
      have h2 : b.attrType = DsetAttrType.FIELD :=
        (isFIELD_iff b).mp ((Bool.and_eq_true _ _).mp hpb).1
      simp [leKind, h1, h2]
    rw [hAn, hBSn, hBn, hstab, List.nil_append]

/-- Length of the non-FIELD block of the kind-sorted list. -/
theorem filter_not_isFIELD_length (l : List CellTup) :
    ((l.mergeSort leKind).filter (fun t => !isFIELD t)).length
      = l.length - l.countP isFIELD := by
  have hsplit := congrArg List.length (kind_sorted_split l)
  rw [List.length_append, List.length_mergeSort, filter_isFIELD_length] at hsplit
  omega

/-- C10: with as many supplied field specs as FIELD declarations, the
classifier output splits at the non-FIELD count into a prefix of non-FIELD
entries and a suffix of FIELD entries whose group names are in lexicographic
order and whose attached field specs (array name, component count) are exactly
the supplied spec list in its given order: the j-th FIELD attribute in the
group-name-sorted order receives the j-th supplied spec, so the pairing
follows the sorted order, not the original declaration order. -/
theorem field_spec_pairing (l : List CellTup) (fas : List (String × Nat))
    (tags : List String) (hn : l.countP isFIELD = fas.length) :
    (((groups_celldata_sort l fas tags).take (l.length - l.countP isFIELD)).all
        (fun t => !isFIELD t.base))
    ∧ (((groups_celldata_sort l fas tags).drop (l.length - l.countP isFIELD)).all
        (fun t => isFIELD t.base))
    ∧ ((((groups_celldata_sort l fas tags).drop (l.length - l.countP isFIELD)).map
        (fun t => t.base.dataName)).Pairwise (· ≤ ·))
    ∧ (((groups_celldata_sort l fas tags).drop (l.length - l.countP isFIELD)).map
        (fun t => t.fieldArray) = fas.map some) := by
  have hmb := groups_celldata_map_base l fas tags (le_of_eq hn)
  have hmf := groups_celldata_map_fieldArray l fas tags hn
  set r := groups_celldata_sort l fas tags with hr
  set s := l.mergeSort leKind with hs
  set A := s.filter (fun t => !isFIELD t) with hA
  set B := s.filter isFIELD with hB
  set BS := B.mergeSort leName with hBS
  have hAlen : A.length = l.length - l.countP isFIELD := by
    rw [hA, hs]
    exact filter_not_isFIELD_length l
  have hmemA : ∀ t ∈ A, isFIELD t = false := by
    intro t ht
    rw [hA] at ht
    have h1 := List.of_mem_filter ht
    simpa using h1
  have hmemBS : ∀ t ∈ BS, isFIELD t = true := by
    intro t ht
    rw [hBS] at ht
    have h1 := List.mem_mergeSort.mp ht
    rw [hB] at h1
    exact List.of_mem_filter h1
  have htakeA : (r.take (l.length - l.countP isFIELD)).map (fun t => t.base) = A := by
    rw [List.map_take, hmb]
    exact List.take_left' hAlen
  have hdropBS : (r.drop (l.length - l.countP isFIELD)).map (fun t => t.base) = BS := by
    rw [List.map_drop, hmb]
    exact List.drop_left' hAlen
  refine ⟨?_, ?_, ?_, ?_⟩
  · apply List.all_eq_true.mpr
    intro t ht
    have hmem : t.base ∈ A := by
      rw [← htakeA]
      exact List.mem_map_of_mem _ ht
    simp [hmemA t.base hmem]
  · apply List.all_eq_true.mpr
    intro t ht
    have hmem : t.base ∈ BS := by
      rw [← hdropBS]
      exact List.mem_map_of_mem _ ht
    simp [hmemBS t.base hmem]
  · have hmap : (r.drop (l.length - l.countP isFIELD)).map (fun t => t.base.dataName)
        = BS.map (fun t => t.dataName) := by
      rw [← hdropBS, List.map_map]
      rfl
    rw [hmap, List.pairwise_map]
    exact (List.sorted_mergeSort leName_trans leName_total B).imp
      (fun h => by simpa [leName] using h)
  · rw [List.map_drop, hmf]
    exact List.drop_left' (List.length_replicate _ _)

/-- C1 witness: a concrete attribute list with two FIELD groups and one
scalar, with exactly matching field specs. -/
theorem celldata_classifier_order_witness :
    ((groups_celldata_sort
        [⟨[], "korn", "int", DsetAttrType.FIELD⟩,
         ⟨[], "grainID", "int", DsetAttrType.SCALARS⟩,
         ⟨[], "alpha", "float", DsetAttrType.FIELD⟩]
        [("a", 3), ("b", 3)] []).map (fun t => t.base)).Perm
      [⟨[], "korn", "int", DsetAttrType.FIELD⟩,
       ⟨[], "grainID", "int", DsetAttrType.SCALARS⟩,
       ⟨[], "alpha", "float", DsetAttrType.FIELD⟩] :=
  (celldata_classifier_order
    [⟨[], "korn", "int", DsetAttrType.FIELD⟩,
     ⟨[], "grainID", "int", DsetAttrType.SCALARS⟩,
     ⟨[], "alpha", "float", DsetAttrType.FIELD⟩]
    [("a", 3), ("b", 3)] [] (by decide)).1

/-- C10 witness: the two FIELD attributes named beta and alpha receive, after
the name sort, the first and second supplied specs respectively. -/
theorem field_spec_pairing_witness :
    ((groups_celldata_sort
        [⟨[], "beta", "float", DsetAttrType.FIELD⟩,
         ⟨[], "id", "int", DsetAttrType.SCALARS⟩,
         ⟨[], "alpha", "float", DsetAttrType.FIELD⟩]
        [("a1", 3), ("a2", 1)] ["<x>"]).drop
          ((3 : Nat) -
            (List.countP isFIELD
              [⟨[], "beta", "float", DsetAttrType.FIELD⟩,
               ⟨[], "id", "int", DsetAttrType.SCALARS⟩,
               ⟨[], "alpha", "float", DsetAttrType.FIELD⟩]))).map
        (fun t => t.fieldArray)
      = [("a1", 3), ("a2", 1)].map some :=
  (field_spec_pairing
    [⟨[], "beta", "float", DsetAttrType.FIELD⟩,
     ⟨[], "id", "int", DsetAttrType.SCALARS⟩,
     ⟨[], "alpha", "float", DsetAttrType.FIELD⟩]
    [("a1", 3), ("a2", 1)] ["<x>"] (by decide)).2.2.2

namespace rotMat

/-- The clamp is the identity on values already between minus one and one. -/
theorem clampPM1_of_bounds (x : ℝ) (h1 : x ≤ 1) (h2 : -1 ≤ x) : clampPM1 x = x := by
  unfold clampPM1
  rw [if_neg (not_lt.mpr h1), if_neg (not_lt.mpr h2)]

/-- On the closed right half-turn the recovery pattern inverts sine and
cosine exactly: the mirror and pull-back corrections stay inactive. -/
theorem recoverAngle_exact (tol phi : ℝ) (htol : 0 < tol)
    (h1 : -(Real.pi/2) ≤ phi) (h2 : phi ≤ Real.pi/2) :
    recoverAngle tol (Real.sin phi) (Real.cos phi) = phi := by
  simp only [recoverAngle]
  rw [clampPM1_of_bounds _ (Real.sin_le_one phi) (Real.neg_one_le_sin phi),
    Real.arcsin_sin h1 h2]
  have hcond : ¬ (|Real.cos phi - Real.cos phi| > tol) := by
    rw [sub_self, abs_zero]
    exact not_lt.mpr htol.le
  rw [if_neg hcond]
  have hcond2 : ¬ (phi > Real.pi + 1e-6) := not_lt.mpr (by linarith [Real.pi_pos])
  rw [if_neg hcond2]

/-- Recovery at sine zero, cosine one. -/
theorem recoverAngle_zero (tol : ℝ) (htol : 0 < tol) : recoverAngle tol 0 1 = 0 := by
  have h := recoverAngle_exact tol 0 htol (by linarith [Real.pi_pos]) (by linarith [Real.pi_pos])
  rwa [Real.sin_zero, Real.cos_zero] at h

/-- Recovery at sine one, cosine zero. -/
theorem recoverAngle_one (tol : ℝ) (htol : 0 < tol) :
    recoverAngle tol 1 0 = Real.pi/2 := by
  have h := recoverAngle_exact tol (Real.pi/2) htol (by linarith [Real.pi_pos]) le_rfl
  rwa [Real.sin_pi_div_two, Real.cos_pi_div_two] at h

/-- Recovery at sine minus one, cosine zero. -/
theorem recoverAngle_neg_one (tol : ℝ) (htol : 0 < tol) :
    recoverAngle tol (-1) 0 = -(Real.pi/2) := by
  have h := recoverAngle_exact tol (-(Real.pi/2)) htol le_rfl (by linarith [Real.pi_pos])
  rwa [Real.sin_neg, Real.sin_pi_div_two, Real.cos_neg, Real.cos_pi_div_two] at h

/-- The final fold is the identity on nonnegative angles. -/
theorem foldTwoPi_of_nonneg (x : ℝ) (h : 0 ≤ x) : foldTwoPi x = x := by
  unfold foldTwoPi
  rw [if_neg (not_lt.mpr h)]

/-- The final fold adds one turn to negative angles. -/
theorem foldTwoPi_neg (x : ℝ) (h : x < 0) : foldTwoPi x = x + 2 * Real.pi := by
  unfold foldTwoPi
  rw [if_pos h]

/-- Degree-radian conversion round trip. -/
theorem rad2deg_scale (d : ℝ) : rad2deg (d * Real.pi / 180) = d := by
  unfold rad2deg
  rw [show d * Real.pi / 180 = d * (Real.pi / 180) by ring]
  exact mul_div_cancel_right₀ d (ne_of_gt (by positivity))

theorem rad2deg_zero : rad2deg 0 = 0 := by
  unfold rad2deg
  exact zero_div _

theorem rad2deg_pi_div_two : rad2deg (Real.pi/2) = 90 := by
  have h := rad2deg_scale 90
  rw [show (90:ℝ) * Real.pi / 180 = Real.pi/2 by ring] at h
  exact h

theorem rad2deg_threeHalfTurn : rad2deg (-(Real.pi/2) + 2 * Real.pi) = 270 := by
  have h := rad2deg_scale 270
  rw [show (270:ℝ) * Real.pi / 180 = -(Real.pi/2) + 2 * Real.pi by ring] at h
  exact h

/-- The input conversion leaves nonnegative degree values unfolded. -/
theorem deg2rad_of_nonneg (d : ℝ) (h : 0 ≤ d) : deg2rad d = d * Real.pi / 180 := by
  simp only [deg2rad]
  rw [if_neg (not_lt.mpr (div_nonneg (mul_nonneg h Real.pi_pos.le) (by norm_num)))]

theorem deg2rad_90 : deg2rad 90 = Real.pi / 2 := by
  rw [deg2rad_of_nonneg 90 (by norm_num)]
  ring

theorem deg2rad_zero : deg2rad 0 = 0 := by
  rw [deg2rad_of_nonneg 0 le_rfl]
  ring

theorem deg2rad_270 : deg2rad 270 = Real.pi/2 + Real.pi := by
  rw [deg2rad_of_nonneg 270 (by norm_num)]
  ring

/-- Shape of the decomposition on a matrix with [2,2] entry zero: the general
branch with sinTheta one and theta ninety degrees. -/
theorem rotationMatrixToEulerAngles_general (R : Mat3) (hR : R.a22 = 0) :
    rotationMatrixToEulerAngles R
      = (rad2deg (foldTwoPi (recoverAngle 5e-3 R.a02 (-R.a12))), 90,
         rad2deg (foldTwoPi (recoverAngle 1e-3 R.a20 R.a21))) := by
  have hclamp : clampPM1 R.a22 = 0 := by
    rw [hR]
    exact clampPM1_of_bounds 0 (by norm_num) (by norm_num)
  have hsq0 : Real.sqrt (1 - (0:ℝ) * 0) = 1 := by
    rw [show (1 - (0:ℝ) * 0) = 1 by norm_num]
    exact Real.sqrt_one
  simp only [rotationMatrixToEulerAngles, hclamp, hsq0]
  rw [if_neg (by norm_num : ¬ (|(1:ℝ)| < 1e-5))]
  dsimp only
  rw [Real.arccos_zero, foldTwoPi_of_nonneg (Real.pi/2) (by positivity),
    rad2deg_pi_div_two]
  simp only [div_one]

/-- Shape of the decomposition on a matrix with [2,2] entry minus one: the
degenerate branch with theta and psi zero. -/
theorem rotationMatrixToEulerAngles_degNegOne (R : Mat3) (hR : R.a22 = -1) :
    rotationMatrixToEulerAngles R
      = (rad2deg (foldTwoPi (recoverAngle 5e-3 R.a10 R.a00)), 0, 0) := by
  have hclamp : clampPM1 R.a22 = -1 := by
    rw [hR]
    exact clampPM1_of_bounds (-1) (by norm_num) le_rfl
  have hsq0 : Real.sqrt (1 - (-1:ℝ) * -1) = 0 := by
    rw [show (1 - (-1:ℝ) * -1) = 0 by norm_num]
    exact Real.sqrt_zero
  simp only [rotationMatrixToEulerAngles, hclamp, hsq0]
  rw [if_pos (by norm_num : |(0:ℝ)| < 1e-5)]
  dsimp only
  rw [foldTwoPi_of_nonneg 0 le_rfl, rad2deg_zero]

/-- The conjugated matrix for input angles (phi, 90 degrees, 0) towards the
MICRESS convention. -/
theorem euler2mat_family_tm (phi : ℝ) :
    eulerAnglesToRotationMatrix phi (Real.pi/2) 0 true
      = ⟨Real.cos phi, -Real.sin phi, 0, 0, 0, -1, Real.sin phi, Real.cos phi, 0⟩ := by
  simp only [eulerAnglesToRotationMatrix, R0, R1, R2, Ram, Rma, mat3Mul,
    Real.cos_pi_div_two, Real.sin_pi_div_two, Real.cos_zero, Real.sin_zero]
  simp only [Mat3.mk.injEq]
  refine ⟨?_, ?_, ?_, ?_, ?_, ?_, ?_, ?_, ?_⟩ <;> ring

/-- The conjugated matrix for input angles (0, 90 degrees, phi) away from the
MICRESS convention. -/
theorem euler2mat_family_fm (phi : ℝ) :
    eulerAnglesToRotationMatrix 0 (Real.pi/2) phi false
      = ⟨Real.cos phi, 0, Real.sin phi, Real.sin phi, 0, -Real.cos phi, 0, 1, 0⟩ := by
  simp only [eulerAnglesToRotationMatrix, R0, R1, R2, Ram, Rma, mat3Mul,
    Real.cos_pi_div_two, Real.sin_pi_div_two, Real.cos_zero, Real.sin_zero]
  simp only [Mat3.mk.injEq]
  refine ⟨?_, ?_, ?_, ?_, ?_, ?_, ?_, ?_, ?_⟩ <;> ring

/-- The conjugated matrix at input angles of ninety degrees on each axis. -/
theorem euler2mat_909090 :
    eulerAnglesToRotationMatrix (Real.pi/2) (Real.pi/2) (Real.pi/2) true
      = ⟨0, -1, 0, -1, 0, 0, 0, 0, -1⟩ := by
  simp only [eulerAnglesToRotationMatrix, R0, R1, R2, Ram, Rma, mat3Mul,
    Real.cos_pi_div_two, Real.sin_pi_div_two]
  simp only [Mat3.mk.injEq]
  norm_num

/-- The conjugated matrix at input angles (270, 0, 0) degrees away from the
MICRESS convention. -/
theorem euler2mat_270 :
    eulerAnglesToRotationMatrix (Real.pi/2 + Real.pi) 0 0 false
      = ⟨0, 0, -1, 0, 1, 0, 1, 0, 0⟩ := by
  simp only [eulerAnglesToRotationMatrix, R0, R1, R2, Ram, Rma, mat3Mul,
    Real.cos_add_pi, Real.sin_add_pi, Real.cos_pi_div_two, Real.sin_pi_div_two,
    Real.cos_zero, Real.sin_zero]
  simp only [Mat3.mk.injEq]
  norm_num

/-- Decomposition of the family-A matrix: angles (0, 90, phi in degrees). -/
theorem decomp_family_A (phi : ℝ) (h0 : 0 ≤ phi) (h2 : phi ≤ Real.pi/2) :
    rotationMatrixToEulerAngles
        ⟨Real.cos phi, -Real.sin phi, 0, 0, 0, -1, Real.sin phi, Real.cos phi, 0⟩
      = (0, 90, rad2deg phi) := by
  rw [rotationMatrixToEulerAngles_general _ rfl]
  dsimp only
  rw [neg_neg]
  rw [recoverAngle_zero _ (by norm_num),
    recoverAngle_exact _ phi (by norm_num) (by linarith [Real.pi_pos]) h2]
  rw [foldTwoPi_of_nonneg 0 le_rfl, rad2deg_zero, foldTwoPi_of_nonneg phi h0]

/-- Decomposition of the family-B matrix: angles (phi in degrees, 90, 0). -/
theorem decomp_family_B (phi : ℝ) (h0 : 0 ≤ phi) (h2 : phi ≤ Real.pi/2) :
    rotationMatrixToEulerAngles
        ⟨Real.cos phi, 0, Real.sin phi, Real.sin phi, 0, -Real.cos phi, 0, 1, 0⟩
      = (rad2deg phi, 90, 0) := by
  rw [rotationMatrixToEulerAngles_general _ rfl]
  dsimp only
  rw [neg_neg]
  rw [recoverAngle_exact _ phi (by norm_num) (by linarith [Real.pi_pos]) h2,
    recoverAngle_zero _ (by norm_num)]
  rw [foldTwoPi_of_nonneg phi h0, foldTwoPi_of_nonneg 0 le_rfl, rad2deg_zero]

/-- Decomposition of the degenerate intermediate matrix of the
counterexample. -/
theorem decomp_ce_first :
    rotationMatrixToEulerAngles ⟨0, -1, 0, -1, 0, 0, 0, 0, -1⟩
      = ((270:ℝ), 0, 0) := by
  rw [rotationMatrixToEulerAngles_degNegOne _ rfl]
  dsimp only
  rw [recoverAngle_neg_one _ (by norm_num),
    foldTwoPi_neg _ (by linarith [Real.pi_pos]), rad2deg_threeHalfTurn]

/-- Decomposition of the matrix the second pass of the counterexample
produces. -/
theorem decomp_ce_second :
    rotationMatrixToEulerAngles ⟨0, 0, -1, 0, 1, 0, 1, 0, 0⟩
      = ((270:ℝ), 90, 90) := by
  rw [rotationMatrixToEulerAngles_general _ rfl]
  dsimp only
  rw [neg_zero]
  rw [recoverAngle_neg_one _ (by norm_num), recoverAngle_one _ (by norm_num)]
  rw [foldTwoPi_neg _ (by linarith [Real.pi_pos]), rad2deg_threeHalfTurn,
    foldTwoPi_of_nonneg _ (by positivity), rad2deg_pi_div_two]

/-- First pass of the counterexample: the intermediate matrix is degenerate,
so (90, 90, 90) comes out as (270, 0, 0). -/
theorem rotate_ce_first : rotate ((90:ℝ), 90, 90) true = ((270:ℝ), 0, 0) := by
  unfold rotate
  dsimp only
  rw [deg2rad_90, euler2mat_909090, decomp_ce_first]

/-- Second pass of the counterexample. -/
theorem rotate_ce_second : rotate ((270:ℝ), 0, 0) false = ((270:ℝ), 90, 90) := by
  unfold rotate
  dsimp only
  rw [deg2rad_270, deg2rad_zero, euler2mat_270, decomp_ce_second]

/-- C2 counterexample: at the Euler triple (90, 90, 90) — whose middle angle
90 is as far as possible from the degenerate values 0 and 180 — the
composition rotate(rotate(v, true), false) returns (270, 90, 90): the first
component is off by 180 degrees, far beyond the 1e-3 tolerance (both 270 and
90 already lie in [0, 360), so folding changes nothing).  The reason: the
conjugated intermediate matrix at this input has [2,2] entry minus one, so the
first decomposition takes its degenerate branch; the degeneracy that matters
is that of the conjugated matrix, not of the input middle angle. -/
theorem rotate_roundtrip_counterexample :
    rotate (rotate ((90:ℝ), 90, 90) true) false = ((270:ℝ), 90, 90)
    ∧ ¬ (|(270:ℝ) - 90| ≤ 1e-3) := by
  constructor
  · rw [rotate_ce_first, rotate_ce_second]
  · norm_num

/-- C2 amended: keeping the middle input angle away from 0 and 180 degrees
does not guarantee the round trip; away from the degeneracy of the conjugated
intermediate matrix the round trip can hold exactly: for every first angle d
between 0 and 90 degrees, rotate(rotate((d, 90, 0), true), false) returns
(d, 90, 0) with error zero, in particular within 1e-3 degrees. -/
theorem rotate_roundtrip_restricted (d : ℝ) (h0 : 0 ≤ d) (h90 : d ≤ 90) :
    rotate (rotate (d, 90, 0) true) false = (d, 90, 0) := by
  have hphi0 : 0 ≤ d * Real.pi / 180 :=
    div_nonneg (mul_nonneg h0 Real.pi_pos.le) (by norm_num)
  have hphi2 : d * Real.pi / 180 ≤ Real.pi / 2 := by
    have h3 : 0 ≤ (90 - d) * Real.pi := mul_nonneg (by linarith) Real.pi_pos.le
    nlinarith
  have hfirst : rotate (d, 90, 0) true = (0, 90, d) := by
    unfold rotate
    dsimp only
    rw [deg2rad_of_nonneg d h0, deg2rad_90, deg2rad_zero, euler2mat_family_tm,
      decomp_family_A _ hphi0 hphi2, rad2deg_scale]
  rw [hfirst]
  unfold rotate
  dsimp only
  rw [deg2rad_zero, deg2rad_90, deg2rad_of_nonneg d h0, euler2mat_family_fm,
    decomp_family_B _ hphi0 hphi2, rad2deg_scale]

/-- C2 amended witness: the exact round trip at (45, 90, 0). -/
theorem rotate_roundtrip_restricted_witness :
    rotate (rotate ((45:ℝ), 90, 0) true) false = ((45:ℝ), 90, 0) :=
  rotate_roundtrip_restricted 45 (by norm_num) (by norm_num)

end rotMat

end Hdf2Mic
